import Mathlib

/-!
Shallow embedding of the token-bounded segmentation and summarization engine
of `llmlib.py` (repository gpt-search): `split_separator`, the `Llm` class
(`ask`, `increment_counter`, `split_text`, `summarize`) and the counter /
cache state they mutate.  Python strings are modelled as `List Char`,
Python ints as `Int` (token counts, which are lengths of encodings, as
`Nat`).  Fallible code returns `Except PyError`.
-/

/-- Text is a Python string, modelled as its list of characters. -/
abbrev Text := List Char

/-- Runtime errors of the embedded code.  `validationError` models the
`AssertionError` of `assert len(prompt) > 25` in `Llm.ask`;
`indexError` models the `IndexError` raised by `separators[0]` in
`Llm.split_text` when the separator tuple is empty; `nonTermination`
models a non-terminating `while` loop in `split_separator` (reachable
only for separators whose match can be empty). -/
inductive PyError where
  | validationError
  | indexError
  | nonTermination
deriving DecidableEq, Repr

/-- Model of a separator regex with two capture groups, as used by
`re.split(separator, remainder, maxsplit=1)`: given a string, either
there is no match (`none`), or the split yields exactly four pieces
`(before, group1, group2, after)`. -/
abbrev Separator := Text → Option (Text × Text × Text × Text)

/-- Loop body of `split_separator` (llmlib.py lines 16-28), with explicit
fuel standing for the unbounded `while remainder:` loop.  `none` models
non-termination of that loop. -/
def split_separator_go (σ : Separator) : Nat → Text → Text → Option (List Text)
  | 0, _, _ => none
  | fuel + 1, before_remainder, remainder =>
    if remainder = [] then some []
    else
      match σ remainder with
      | none => some [before_remainder ++ remainder]
      | some (part, after_part, next_before_remainder, next_remainder) =>
        (split_separator_go σ fuel next_before_remainder next_remainder).map
          (fun rest => (before_remainder ++ part ++ after_part) :: rest)

/-- Model of `split_separator(text, separator)` (llmlib.py lines 10-28).
The fuel `text.length + 1` is enough for every separator whose matches
are nonempty (every loop iteration then strictly shortens `remainder`). -/
def split_separator (text : Text) (σ : Separator) : Option (List Text) :=
  split_separator_go σ (text.length + 1) [] text

/-- Python `\s` on the ASCII characters that occur in this development. -/
def pyIsSpace (c : Char) : Bool :=
  c == ' ' || c == '\t' || c == '\n' || c == '\r' || c == '\x0b' || c == '\x0c'

/-- Longest all-whitespace prefix of the input that ends with a newline;
`none` if there is none.  This is what the greedy subpattern
`(?:\s*\n)+` of the first default separator matches. -/
def wsNlPrefix : Text → Option Text
  | [] => none
  | c :: t =>
    if pyIsSpace c then
      match wsNlPrefix t with
      | some m => some (c :: m)
      | none => if c == '\n' then some [c] else none
    else none

/-- Leftmost match of the regex `\n(?:\s*\n)+`: returns
`(before, match, after)`. -/
def sep_paragraph_find : Text → Option (Text × Text × Text)
  | [] => none
  | c :: t =>
    if c == '\n' then
      match wsNlPrefix t with
      | some m => some ([], c :: m, t.drop m.length)
      | none => (sep_paragraph_find t).map (fun r => (c :: r.1, r.2.1, r.2.2))
    else (sep_paragraph_find t).map (fun r => (c :: r.1, r.2.1, r.2.2))

/-- Model of the first default separator of `split_text`,
the regex `(\n(?:\s*\n)+)()`: group 1 is the whole match, group 2 is
empty. -/
def sep_paragraph : Separator := fun s =>
  (sep_paragraph_find s).map (fun r => (r.1, r.2.1, [], r.2.2))

/-- Model of the second default separator of `split_text`, the regex
`(\n+)()`. -/
def sep_newlines : Separator := fun s =>
  let b := s.takeWhile (fun c => !(c == '\n'))
  let t := s.dropWhile (fun c => !(c == '\n'))
  match t with
  | [] => none
  | _ => some (b, t.takeWhile (fun c => c == '\n'), [],
      t.dropWhile (fun c => c == '\n'))

/-- Model of the third default separator of `split_text`, the regex
`(\s+)()`. -/
def sep_whitespace : Separator := fun s =>
  let b := s.takeWhile (fun c => !pyIsSpace c)
  let t := s.dropWhile (fun c => !pyIsSpace c)
  match t with
  | [] => none
  | _ => some (b, t.takeWhile pyIsSpace, [], t.dropWhile pyIsSpace)

/-- Default `separators` argument of `Llm.split_text` (llmlib.py line 134). -/
def default_separators : List Separator :=
  [sep_paragraph, sep_newlines, sep_whitespace]

/-- Capability provider interface (class `Api` of llmlib.py), with
`reprStr` standing for `repr(self.api)`, the identity string used in
cache keys and counter names.  `ask` is the provider call, assumed
deterministic as in spec section 4.5. -/
structure Api where
  ask : Text → Text
  token_count : Text → Nat
  max_token_count : Nat
  reprStr : String

/-- Association-list get, modelling Python `dict.get` / `Cache.get`:
the value stored for the key, or `none`. -/
def dictGet {K V : Type} [DecidableEq K] (m : List (K × V)) (k : K) : Option V :=
  match m with
  | [] => none
  | (k', v) :: rest => if k' = k then some v else dictGet rest k

/-- Association-list set, modelling Python `d[k] = v`: replace in place
if the key is present, else append. -/
def dictSet {K V : Type} [DecidableEq K] (m : List (K × V)) (k : K) (v : V) :
    List (K × V) :=
  match m with
  | [] => [(k, v)]
  | (k', v') :: rest => if k' = k then (k, v) :: rest else (k', v') :: dictSet rest k v

/-- Cache keys: `("ask", repr(self.api), prompt)`. -/
abbrev CacheKey := String × String × Text

/-- Mutable state of an `Llm` object: the persistent cache and the
in-process counters dictionary. -/
structure LlmState where
  cache : List (CacheKey × Text)
  counters : List (String × Nat)
deriving DecidableEq, Repr

/-- Fresh state: `Llm.__init__` starts with `self.counters = {}`; the cache
is empty on a first run. -/
def initState : LlmState :=
  { cache := [], counters := [] }

/-- Counter read-out: a missing counter reads as 0. -/
def counterGet (m : List (String × Nat)) (name : String) : Nat :=
  (dictGet m name).getD 0

/-- Model of `Llm.increment_counter` (llmlib.py lines 118-120):
`setdefault(name, 0)` followed by `+= 1`. -/
def Llm.increment_counter (m : List (String × Nat)) (name : String) :
    List (String × Nat) :=
  dictSet m name (counterGet m name + 1)

/-- Python truthiness of `self.cache.get(cache_key)`: `None` and the
empty string are falsy. -/
def pyTruthy : Option Text → Bool
  | none => false
  | some s => !s.isEmpty

/-- Model of `Llm.ask` (llmlib.py lines 91-116): assert the prompt length
floor, read the cache, bump the total counter, then either take the hit
branch (truthy cached value) or the miss branch (provider call), write
the result back into the cache unconditionally, and return it. -/
def Llm.ask (api : Api) (st : LlmState) (prompt : Text) :
    Except PyError (Text × LlmState) :=
  if prompt.length > 25 then
    let cache_key : CacheKey := ("ask", api.reprStr, prompt)
    let cached := dictGet st.cache cache_key
    let c1 := Llm.increment_counter st.counters ("ask-" ++ api.reprStr)
    let result := if pyTruthy cached then cached.getD [] else api.ask prompt
    let c2 :=
      if pyTruthy cached then
        Llm.increment_counter c1 ("ask-" ++ api.reprStr ++ "-hit")
      else
        Llm.increment_counter c1 ("ask-" ++ api.reprStr ++ "-miss")
    Except.ok (result, { cache := dictSet st.cache cache_key result, counters := c2 })
  else
    Except.error PyError.validationError

/-- One step of the combine loop of `Llm.split_text` (llmlib.py lines
149-153): merge `part` into the last accumulated part when the combined
token count fits, else append it. -/
def merge_step (api : Api) (token_limit : Int) (parts : List Text) (part : Text) :
    List Text :=
  match parts.getLast? with
  | some last =>
    if (api.token_count (last ++ part) : Int) ≤ token_limit then
      parts.dropLast ++ [last ++ part]
    else
      parts ++ [part]
  | none => parts ++ [part]

/-- The whole combine pass of `Llm.split_text` (llmlib.py lines 147-154);
the "Merger" of spec section 4.2. -/
def merge_parts (api : Api) (token_limit : Int) (short_parts : List Text) :
    List Text :=
  short_parts.foldl (merge_step api token_limit) []

/-- Accumulator form of the combine pass: `acc` is the (nonempty) last
entry of `parts` that llmlib.py line 151 keeps extending in place.
`merge_parts` is proved equal to it below and it carries the proofs. -/
def merge_aux (api : Api) (token_limit : Int) : Text → List Text → List Text
  | acc, [] => [acc]
  | acc, p :: ps =>
    if (api.token_count (acc ++ p) : Int) ≤ token_limit then
      merge_aux api token_limit (acc ++ p) ps
    else
      acc :: merge_aux api token_limit p ps

/-- The `for part in split_separator(...)` loop of `Llm.split_text`
(llmlib.py lines 140-145): keep parts that fit, recurse (via the handler
`f`, instantiated below with `split_text_go` on the remaining
separators) into parts that do not. -/
def split_parts (api : Api) (token_limit : Int)
    (f : Text → Except PyError (List Text)) :
    List Text → Except PyError (List Text)
  | [] => Except.ok []
  | p :: ps =>
    match (if (api.token_count p : Int) > token_limit then f p
           else Except.ok [p]) with
    | Except.error e => Except.error e
    | Except.ok first =>
      match split_parts api token_limit f ps with
      | Except.error e => Except.error e
      | Except.ok rest => Except.ok (first ++ rest)

/-- Model of `Llm.split_text` (llmlib.py lines 134-154) after the `None`
default has been resolved, by recursion on the separator list.  An empty
separator list models the `separators[0]` `IndexError`; a diverging
`split_separator` loop surfaces as `nonTermination`. -/
def split_text_go (api : Api) (token_limit : Int) :
    List Separator → Text → Except PyError (List Text)
  | [], _ => Except.error PyError.indexError
  | σ :: rest, text =>
    match split_separator text σ with
    | none => Except.error PyError.nonTermination
    | some parts =>
      (split_parts api token_limit (split_text_go api token_limit rest) parts).map
        (merge_parts api token_limit)

/-- Model of `Llm.split_text` including the `token_limit=None` default
(`self.api.max_token_count()`). -/
def Llm.split_text (api : Api) (token_limit : Option Int)
    (separators : List Separator) (text : Text) : Except PyError (List Text) :=
  split_text_go api (token_limit.getD (api.max_token_count : Int)) separators text

/-- The ask-and-join body of one `summarize` iteration (llmlib.py lines
166-168): `self.ask(f"{prompt} {part}")` for each part in order,
threading the `Llm` state left to right. -/
def ask_join (api : Api) (prompt : Text) :
    LlmState → List Text → Except PyError (List Text × LlmState)
  | st, [] => Except.ok ([], st)
  | st, part :: parts =>
    match Llm.ask api st (prompt ++ ' ' :: part) with
    | Except.error e => Except.error e
    | Except.ok (r, st1) =>
      match ask_join api prompt st1 parts with
      | Except.error e => Except.error e
      | Except.ok (rs, st2) => Except.ok (r :: rs, st2)

/-- One full round of the `summarize` loop body: split the current text
with the default separators, ask about every part, and rejoin with a
blank line (llmlib.py lines 166-168). -/
def summarize_round (api : Api) (token_limit : Int) (prompt : Text)
    (x : Text × LlmState) : Except PyError (Text × LlmState) :=
  match Llm.split_text api (some token_limit) default_separators x.1 with
  | Except.error e => Except.error e
  | Except.ok parts =>
    match ask_join api prompt x.2 parts with
    | Except.error e => Except.error e
    | Except.ok (rs, st) =>
      Except.ok (List.intercalate ('\n' :: '\n' :: []) rs, st)

/-- The `for _ in range(max_iterations)` loop of `Llm.summarize`
(llmlib.py lines 163-168), by recursion on the remaining iterations. -/
def summarize_loop (api : Api) (token_limit : Int) (prompt : Text) :
    Nat → Text × LlmState → Except PyError (Text × LlmState)
  | 0, x => Except.ok x
  | n + 1, x =>
    if (api.token_count x.1 : Int) ≤ token_limit then Except.ok x
    else
      match summarize_round api token_limit prompt x with
      | Except.error e => Except.error e
      | Except.ok y => summarize_loop api token_limit prompt n y

/-- Effective token budget computed at the top of `Llm.summarize`
(llmlib.py lines 158-162): `max_token_count() - token_count(prompt)`,
clamping any caller-supplied limit to at most that difference. -/
def effective_limit (api : Api) (token_limit : Option Int) (prompt : Text) : Int :=
  let max_tokens : Int := (api.max_token_count : Int) - (api.token_count prompt : Int)
  match token_limit with
  | none => max_tokens
  | some l => min l max_tokens

/-- Model of `Llm.summarize` (llmlib.py lines 156-169). -/
def Llm.summarize (api : Api) (st : LlmState) (text : Text)
    (token_limit : Option Int) (prompt : Text) (max_iterations : Nat) :
    Except PyError (Text × LlmState) :=
  summarize_loop api (effective_limit api token_limit prompt) prompt
    max_iterations (text, st)

/-- Pure iteration of `summarize_round` k times (no budget check), used to
state that `summarize` performs a bounded number of rounds. -/
def iterate_rounds (api : Api) (token_limit : Int) (prompt : Text) :
    Nat → Text × LlmState → Except PyError (Text × LlmState)
  | 0, x => Except.ok x
  | k + 1, x =>
    match summarize_round api token_limit prompt x with
    | Except.error e => Except.error e
    | Except.ok y => iterate_rounds api token_limit prompt k y

/-- Well-formedness of a separator model: the four pieces of a split
reassemble to the input, as holds for every regex whose two capture
groups together cover the whole match (true of all default rules). -/
def SepCovers (σ : Separator) : Prop :=
  ∀ s b g1 g2 a, σ s = some (b, g1, g2, a) → b ++ g1 ++ g2 ++ a = s

/-- A separator never produces a match whose second captured group sits at
the very end of the text being split (`split_separator` drops that group:
its loop exits on an empty remainder without flushing
`before_remainder`).  Holds in particular whenever the second capture
group is always empty, as in all default rules. -/
def SepKeepsTail (σ : Separator) : Prop :=
  ∀ s b g1 g2 a, σ s = some (b, g1, g2, a) → a = [] → g2 = []

/-- A provider whose token count of a text is its character count; the
provider response is irrelevant for splitting. -/
def lenApi : Api :=
  { ask := fun _ => [], token_count := fun t => t.length,
    max_token_count := 100, reprStr := "api" }

/-- A provider that always answers the empty string (a degenerate but
legal response). -/
def emptyApi : Api :=
  { ask := fun _ => [], token_count := fun t => t.length,
    max_token_count := 100, reprStr := "e" }

/-- A provider that always answers a fixed non-empty string. -/
def okApi : Api :=
  { ask := fun _ => "ok".toList, token_count := fun t => t.length,
    max_token_count := 100, reprStr := "o" }

/-- A provider used for a cache-hit scenario (its `ask` is never reached). -/
def hitApi : Api :=
  { ask := fun _ => [], token_count := fun t => t.length,
    max_token_count := 100, reprStr := "h" }

/-- A provider that always answers the one-character string "z"; its
model limit is 40 tokens. -/
def zApi : Api :=
  { ask := fun _ => ['z'], token_count := fun t => t.length,
    max_token_count := 40, reprStr := "s" }

/-- A 26-character prompt, just above the `len(prompt) > 25` floor. -/
def p26 : Text := List.replicate 26 'p'

/-- Two successive `Llm.ask` calls with the same prompt, threading the
state, as in the cache-determinism property of spec section 8. -/
def ask_twice (api : Api) (st : LlmState) (p : Text) :
    Except PyError (Text × Text × LlmState) :=
  match Llm.ask api st p with
  | Except.error e => Except.error e
  | Except.ok (r1, st1) =>
    match Llm.ask api st1 p with
    | Except.error e => Except.error e
    | Except.ok (r2, st2) => Except.ok (r1, r2, st2)

/-- State after calling `ask` on `emptyApi` twice from a fresh state:
both calls miss (the empty cached string is falsy), so the miss counter
reads 2 and no hit counter exists. -/
def emptySt2 : LlmState :=
  { cache := [(("ask", "e", p26), [])],
    counters := [("ask-e", 2), ("ask-e-miss", 2)] }

/-- State after one miss call of `okApi` from a fresh state. -/
def okSt1 : LlmState :=
  { cache := [(("ask", "o", p26), "ok".toList)],
    counters := [("ask-o", 1), ("ask-o-miss", 1)] }

/-- State after a second (hit) call of `okApi`. -/
def okSt2 : LlmState :=
  { cache := [(("ask", "o", p26), "ok".toList)],
    counters := [("ask-o", 2), ("ask-o-miss", 1), ("ask-o-hit", 1)] }

/-- A state whose cache already stores a non-empty response for `p26`. -/
def hitSt : LlmState :=
  { cache := [(("ask", "h", p26), "hello".toList)], counters := [] }

/-- The state after a hit call of `hitApi` from `hitSt`. -/
def hitStAfter : LlmState :=
  { cache := [(("ask", "h", p26), "hello".toList)],
    counters := [("ask-h", 1), ("ask-h-hit", 1)] }

/-- Model of the regex `()(\n+)` under `re.split` semantics: both capture
groups cover the whole match, but the separator run is captured by the
second group, to be kept with the text after the split. -/
def sep_nl_after : Separator := fun s =>
  let b := s.takeWhile (fun c => !(c == '\n'))
  let t := s.dropWhile (fun c => !(c == '\n'))
  match t with
  | [] => none
  | _ => some (b, [], t.takeWhile (fun c => c == '\n'),
      t.dropWhile (fun c => c == '\n'))

/-- A 40-character text made of two long words separated by one space. -/
def longText : Text := List.replicate 20 'a' ++ ' ' :: List.replicate 19 'b'

deriving instance DecidableEq for Except

theorem dictGet_dictSet_self {K V : Type} [DecidableEq K] (m : List (K × V))
    (k : K) (v : V) : dictGet (dictSet m k v) k = some v := by
  induction m with
  | nil => simp [dictGet, dictSet]
  | cons kv rest ih =>
    obtain ⟨k', v'⟩ := kv
    by_cases h : k' = k
    · subst h; simp [dictGet, dictSet]
    · simp [dictGet, dictSet, h, ih]

theorem dictGet_dictSet_ne {K V : Type} [DecidableEq K] (m : List (K × V))
    (k k' : K) (v : V) (h : k ≠ k') : dictGet (dictSet m k v) k' = dictGet m k' := by
  induction m with
  | nil => simp [dictGet, dictSet, h]
  | cons kv rest ih =>
    obtain ⟨k0, v0⟩ := kv
    by_cases h0 : k0 = k
    · subst h0; simp [dictGet, dictSet, h]
    · by_cases h1 : k0 = k'
      · subst h1; simp [dictGet, dictSet, h0, ih]
      · simp [dictGet, dictSet, h0, h1, ih]

theorem counterGet_increment_self (m : List (String × Nat)) (n : String) :
    counterGet (Llm.increment_counter m n) n = counterGet m n + 1 := by
  simp [Llm.increment_counter, counterGet, dictGet_dictSet_self]

theorem counterGet_increment_ne (m : List (String × Nat)) (a b : String)
    (h : a ≠ b) : counterGet (Llm.increment_counter m a) b = counterGet m b := by
  simp [Llm.increment_counter, counterGet, dictGet_dictSet_ne _ _ _ _ h]

theorem total_ne_hit (r : String) : ("ask-" ++ r) ≠ ("ask-" ++ r ++ "-hit") := by
  intro h
  have hl := congrArg String.length h
  have h4 : ("-hit" : String).length = 4 := by decide
  simp only [String.length_append, h4] at hl
  omega

theorem total_ne_miss (r : String) : ("ask-" ++ r) ≠ ("ask-" ++ r ++ "-miss") := by
  intro h
  have hl := congrArg String.length h
  have h5 : ("-miss" : String).length = 5 := by decide
  simp only [String.length_append, h5] at hl
  omega

theorem hit_ne_miss (r : String) :
    ("ask-" ++ r ++ "-hit") ≠ ("ask-" ++ r ++ "-miss") := by
  intro h
  have hl := congrArg String.length h
  have h4 : ("-hit" : String).length = 4 := by decide
  have h5 : ("-miss" : String).length = 5 := by decide
  simp only [String.length_append, h4, h5] at hl
  omega

theorem ask_ok_cases (api : Api) (st : LlmState) (p r : Text) (st' : LlmState)
    (h : Llm.ask api st p = Except.ok (r, st')) :
    p.length > 25 ∧
    r = (if pyTruthy (dictGet st.cache ("ask", api.reprStr, p)) then
          (dictGet st.cache ("ask", api.reprStr, p)).getD []
         else api.ask p) ∧
    st'.cache = dictSet st.cache ("ask", api.reprStr, p) r ∧
    st'.counters =
      (if pyTruthy (dictGet st.cache ("ask", api.reprStr, p)) then
        Llm.increment_counter
          (Llm.increment_counter st.counters ("ask-" ++ api.reprStr))
          ("ask-" ++ api.reprStr ++ "-hit")
       else
        Llm.increment_counter
          (Llm.increment_counter st.counters ("ask-" ++ api.reprStr))
          ("ask-" ++ api.reprStr ++ "-miss")) := by
  unfold Llm.ask at h
  by_cases hp : p.length > 25
  · rw [if_pos hp] at h
    simp only [Except.ok.injEq, Prod.mk.injEq] at h
    obtain ⟨h1, h2⟩ := h
    refine ⟨hp, h1.symm, ?_, ?_⟩
    · rw [← h2, ← h1]
    · rw [← h2]
  · rw [if_neg hp] at h
    exact absurd h (by simp)

/-- C4: every prompt of length at most 25 characters (the `assert
len(prompt) > 25` floor, including the empty prompt) makes `Llm.ask`
fail with the validation error before anything happens: no provider
call, no cache write, no counter update (the returned error carries no
successor state, so the caller's state is untouched). -/
theorem ask_below_floor_validation_error (api : Api) (st : LlmState) (p : Text)
    (h : p.length ≤ 25) :
    Llm.ask api st p = Except.error PyError.validationError := by
  unfold Llm.ask
  rw [if_neg (by omega)]

/-- C4 witness: the empty prompt on a concrete provider and state. -/
theorem ask_below_floor_validation_error_witness :
    ([] : Text).length ≤ 25 ∧
    Llm.ask lenApi initState [] = Except.error PyError.validationError :=
  ⟨by decide, ask_below_floor_validation_error lenApi initState [] (by decide)⟩

/-- C10: after every `Llm.ask` call that returns normally, the cache entry
for `("ask", repr(api), prompt)` equals the returned string (the entry is
rewritten unconditionally, on hits as well as misses), and when the call
was a hit (stored value truthy, i.e. non-empty) the stored value already
equals the returned string, so it is never changed by a repeated call. -/
theorem ask_cache_entry_equals_result (api : Api) (st : LlmState) (p r : Text)
    (st' : LlmState) (h : Llm.ask api st p = Except.ok (r, st')) :
    dictGet st'.cache ("ask", api.reprStr, p) = some r ∧
    (pyTruthy (dictGet st.cache ("ask", api.reprStr, p)) = true →
      dictGet st.cache ("ask", api.reprStr, p) = some r) := by
  obtain ⟨hp, hr, hc, _⟩ := ask_ok_cases api st p r st' h
  constructor
  · rw [hc]
    exact dictGet_dictSet_self _ _ _
  · intro ht
    rw [hr]
    cases hget : dictGet st.cache ("ask", api.reprStr, p) with
    | none => rw [hget] at ht; simp [pyTruthy] at ht
    | some v =>
      rw [hget] at ht
      simp [hget, ht]

/-- C10 witness: a concrete hit call; the cache entry afterwards is the
returned string and the stored non-empty value was returned unchanged. -/
theorem ask_cache_entry_equals_result_witness :
    Llm.ask hitApi hitSt p26 = Except.ok ("hello".toList, hitStAfter) ∧
    dictGet hitStAfter.cache ("ask", "h", p26) = some ("hello".toList) ∧
    dictGet hitSt.cache ("ask", "h", p26) = some ("hello".toList) :=
  ⟨by decide,
   (ask_cache_entry_equals_result hitApi hitSt p26 ("hello".toList) hitStAfter
     (by decide)).1,
   (ask_cache_entry_equals_result hitApi hitSt p26 ("hello".toList) hitStAfter
     (by decide)).2 (by decide)⟩

/-- C3 (counterexample): with a provider that answers the empty string,
two identical `ask` calls from a fresh state both take the miss branch
(`if result:` treats the cached empty string as absent): afterwards the
miss counter reads 2 and the hit counter 0, refuting the claim that the
second call increments the hit counter and not the miss counter. -/
theorem ask_twice_empty_response_cex :
    ask_twice emptyApi initState p26 = Except.ok ([], [], emptySt2) ∧
    counterGet emptySt2.counters ("ask-" ++ emptyApi.reprStr ++ "-hit") = 0 ∧
    counterGet emptySt2.counters ("ask-" ++ emptyApi.reprStr ++ "-miss") = 2 := by
  decide

/-- C3 (amended): two successive `ask` calls with the same prompt return
the same string, the second call increments the hit counter and leaves
the miss counter unchanged, and the bare total counter is incremented by
both calls, provided the string returned by the first call is
non-empty (the code treats a cached empty string as a miss). -/
theorem ask_twice_nonempty_hit (api : Api) (st0 : LlmState) (p r1 r2 : Text)
    (st1 st2 : LlmState)
    (h1 : Llm.ask api st0 p = Except.ok (r1, st1))
    (h2 : Llm.ask api st1 p = Except.ok (r2, st2))
    (hne : r1 ≠ []) :
    r2 = r1 ∧
    counterGet st2.counters ("ask-" ++ api.reprStr ++ "-hit")
      = counterGet st1.counters ("ask-" ++ api.reprStr ++ "-hit") + 1 ∧
    counterGet st2.counters ("ask-" ++ api.reprStr ++ "-miss")
      = counterGet st1.counters ("ask-" ++ api.reprStr ++ "-miss") ∧
    counterGet st1.counters ("ask-" ++ api.reprStr)
      = counterGet st0.counters ("ask-" ++ api.reprStr) + 1 ∧
    counterGet st2.counters ("ask-" ++ api.reprStr)
      = counterGet st1.counters ("ask-" ++ api.reprStr) + 1 := by
  obtain ⟨hp1, hr1, hc1, hcnt1⟩ := ask_ok_cases api st0 p r1 st1 h1
  obtain ⟨hp2, hr2, hc2, hcnt2⟩ := ask_ok_cases api st1 p r2 st2 h2
  have hkey : dictGet st1.cache ("ask", api.reprStr, p) = some r1 := by
    rw [hc1]
    exact dictGet_dictSet_self _ _ _
  have htrue : pyTruthy (dictGet st1.cache ("ask", api.reprStr, p)) = true := by
    rw [hkey]
    cases r1 with
    | nil => exact absurd rfl hne
    | cons a t => rfl
  have hr2' : r2 = r1 := by
    rw [hr2, htrue, if_pos rfl, hkey]
    rfl
  have hcnt2' : st2.counters =
      Llm.increment_counter
        (Llm.increment_counter st1.counters ("ask-" ++ api.reprStr))
        ("ask-" ++ api.reprStr ++ "-hit") := by
    rw [hcnt2, htrue, if_pos rfl]
  refine ⟨hr2', ?_, ?_, ?_, ?_⟩
  · rw [hcnt2', counterGet_increment_self,
      counterGet_increment_ne _ _ _ (total_ne_hit api.reprStr)]
  · rw [hcnt2', counterGet_increment_ne _ _ _ (hit_ne_miss api.reprStr),
      counterGet_increment_ne _ _ _ (total_ne_miss api.reprStr)]
  · by_cases ht : pyTruthy (dictGet st0.cache ("ask", api.reprStr, p)) = true
    · rw [hcnt1, if_pos ht,
        counterGet_increment_ne _ _ _ (Ne.symm (total_ne_hit api.reprStr)),
        counterGet_increment_self]
    · rw [hcnt1, if_neg ht,
        counterGet_increment_ne _ _ _ (Ne.symm (total_ne_miss api.reprStr)),
        counterGet_increment_self]
  · rw [hcnt2', counterGet_increment_ne _ _ _ (Ne.symm (total_ne_hit api.reprStr)),
      counterGet_increment_self]

/-- C3 (amended) witness: a provider answering a fixed non-empty string,
a fresh state, and a 26-character prompt. -/
theorem ask_twice_nonempty_hit_witness :
    Llm.ask okApi initState p26 = Except.ok ("ok".toList, okSt1) ∧
    Llm.ask okApi okSt1 p26 = Except.ok ("ok".toList, okSt2) ∧
    ("ok".toList ≠ ([] : Text)) ∧
    ("ok".toList = "ok".toList ∧
     counterGet okSt2.counters ("ask-" ++ okApi.reprStr ++ "-hit")
       = counterGet okSt1.counters ("ask-" ++ okApi.reprStr ++ "-hit") + 1 ∧
     counterGet okSt2.counters ("ask-" ++ okApi.reprStr ++ "-miss")
       = counterGet okSt1.counters ("ask-" ++ okApi.reprStr ++ "-miss") ∧
     counterGet okSt1.counters ("ask-" ++ okApi.reprStr)
       = counterGet initState.counters ("ask-" ++ okApi.reprStr) + 1 ∧
     counterGet okSt2.counters ("ask-" ++ okApi.reprStr)
       = counterGet okSt1.counters ("ask-" ++ okApi.reprStr) + 1) :=
  ⟨by decide, by decide, by decide,
   ask_twice_nonempty_hit okApi initState p26 ("ok".toList) ("ok".toList)
     okSt1 okSt2 (by decide) (by decide) (by decide)⟩

theorem foldl_merge_step (api : Api) (B : Int) :
    ∀ (ps : List Text) (front : List Text) (l : Text),
      List.foldl (merge_step api B) (front ++ [l]) ps =
        front ++ merge_aux api B l ps := by
  intro ps
  induction ps with
  | nil => intro front l; simp [merge_aux]
  | cons p ps ih =>
    intro front l
    rw [List.foldl_cons]
    by_cases h : (api.token_count (l ++ p) : Int) ≤ B
    · have hstep : merge_step api B (front ++ [l]) p = front ++ [l ++ p] := by
        simp [merge_step, List.getLast?_concat, List.dropLast_concat, h]
      rw [hstep, ih front (l ++ p)]
      simp [merge_aux, h]
    · have hstep : merge_step api B (front ++ [l]) p = (front ++ [l]) ++ [p] := by
        simp [merge_step, List.getLast?_concat, h]
      rw [hstep, ih (front ++ [l]) p]
      simp [merge_aux, h]

theorem merge_parts_cons (api : Api) (B : Int) (p : Text) (ps : List Text) :
    merge_parts api B (p :: ps) = merge_aux api B p ps := by
  have hstep : merge_step api B [] p = [] ++ [p] := by
    simp [merge_step]
  have h := foldl_merge_step api B ps [] p
  simp only [List.nil_append] at h hstep
  rw [merge_parts, List.foldl_cons, hstep, h]

theorem merge_aux_join (api : Api) (B : Int) :
    ∀ (ps : List Text) (acc : Text),
      (merge_aux api B acc ps).join = acc ++ ps.join := by
  intro ps
  induction ps with
  | nil => intro acc; simp [merge_aux]
  | cons p ps ih =>
    intro acc
    by_cases h : (api.token_count (acc ++ p) : Int) ≤ B
    · simp [merge_aux, h, ih]
    · simp [merge_aux, h, ih]

theorem merge_aux_length (api : Api) (B : Int) :
    ∀ (ps : List Text) (acc : Text),
      (merge_aux api B acc ps).length ≤ ps.length + 1 := by
  intro ps
  induction ps with
  | nil => intro acc; simp [merge_aux]
  | cons p ps ih =>
    intro acc
    by_cases h : (api.token_count (acc ++ p) : Int) ≤ B
    · rw [merge_aux, if_pos h]
      have := ih (acc ++ p)
      simpa using Nat.le_succ_of_le this
    · rw [merge_aux, if_neg h]
      have := ih p
      simpa using Nat.succ_le_succ this

theorem merge_aux_mem (api : Api) (B : Int) :
    ∀ (ps : List Text) (acc q : Text), q ∈ merge_aux api B acc ps →
      (api.token_count q : Int) ≤ B ∨ q = acc ∨ q ∈ ps := by
  intro ps
  induction ps with
  | nil =>
    intro acc q hq
    rw [merge_aux] at hq
    simp at hq
    exact Or.inr (Or.inl hq)
  | cons p ps ih =>
    intro acc q hq
    by_cases h : (api.token_count (acc ++ p) : Int) ≤ B
    · rw [merge_aux, if_pos h] at hq
      rcases ih (acc ++ p) q hq with hb | he | hm
      · exact Or.inl hb
      · exact Or.inl (he ▸ h)
      · exact Or.inr (Or.inr (List.mem_cons_of_mem p hm))
    · rw [merge_aux, if_neg h] at hq
      rcases List.mem_cons.mp hq with he | hm
      · exact Or.inr (Or.inl he)
      · rcases ih p q hm with hb | he | hm'
        · exact Or.inl hb
        · exact Or.inr (Or.inr (he ▸ List.mem_cons_self p ps))
        · exact Or.inr (Or.inr (List.mem_cons_of_mem p hm'))

theorem merge_aux_bounded (api : Api) (B : Int) :
    ∀ (ps : List Text) (acc : Text), (api.token_count acc : Int) ≤ B →
      (∀ p ∈ ps, (api.token_count p : Int) ≤ B) →
      ∀ q ∈ merge_aux api B acc ps, (api.token_count q : Int) ≤ B := by
  intro ps
  induction ps with
  | nil =>
    intro acc hacc _ q hq
    rw [merge_aux] at hq
    simp at hq
    exact hq ▸ hacc
  | cons p ps ih =>
    intro acc hacc hps q hq
    by_cases h : (api.token_count (acc ++ p) : Int) ≤ B
    · rw [merge_aux, if_pos h] at hq
      exact ih (acc ++ p) h (fun x hx => hps x (List.mem_cons_of_mem p hx)) q hq
    · rw [merge_aux, if_neg h] at hq
      rcases List.mem_cons.mp hq with he | hm
      · exact he ▸ hacc
      · exact ih p (hps p (List.mem_cons_self p ps))
          (fun x hx => hps x (List.mem_cons_of_mem p hx)) q hm

/-- C6: the greedy merge pass is lossless and order preserving
(concatenating its output equals concatenating its input), returns no
more segments than it was given, and every output segment is within the
budget unless it is an untouched input segment (in particular every
segment formed by combining has token count at most the budget, since
each combination is guarded by the token-count check). -/
theorem merge_parts_lossless_bounded (api : Api) (B : Int) (S : List Text) :
    (merge_parts api B S).join = S.join ∧
    (merge_parts api B S).length ≤ S.length ∧
    ∀ q ∈ merge_parts api B S, (api.token_count q : Int) ≤ B ∨ q ∈ S := by
  cases S with
  | nil => simp [merge_parts]
  | cons p ps =>
    rw [merge_parts_cons]
    refine ⟨by simp [merge_aux_join], ?_, ?_⟩
    · simpa using merge_aux_length api B ps p
    · intro q hq
      rcases merge_aux_mem api B ps p q hq with hb | he | hm
      · exact Or.inl hb
      · exact Or.inr (he ▸ List.mem_cons_self p ps)
      · exact Or.inr (List.mem_cons_of_mem p hm)

/-- C6 witness: merging the two segments "ab" and "c" under budget 3
(counting tokens as characters) combines them into "abc". -/
theorem merge_parts_lossless_bounded_witness :
    (merge_parts lenApi 3 ["ab".toList, "c".toList]).join
      = (["ab".toList, "c".toList] : List Text).join ∧
    (merge_parts lenApi 3 ["ab".toList, "c".toList]).length ≤ 2 ∧
    ((lenApi.token_count ("abc".toList) : Int) ≤ 3 ∨
      "abc".toList ∈ (["ab".toList, "c".toList] : List Text)) :=
  ⟨(merge_parts_lossless_bounded lenApi 3 ["ab".toList, "c".toList]).1,
   (merge_parts_lossless_bounded lenApi 3 ["ab".toList, "c".toList]).2.1,
   (merge_parts_lossless_bounded lenApi 3 ["ab".toList, "c".toList]).2.2
     ("abc".toList) (by decide)⟩

theorem split_separator_go_join (σ : Separator) (hc : SepCovers σ)
    (hd : SepKeepsTail σ) :
    ∀ (fuel : Nat) (b s : Text) (parts : List Text),
      split_separator_go σ fuel b s = some parts → (s = [] → b = []) →
      parts.join = b ++ s := by
  intro fuel
  induction fuel with
  | zero =>
    intro b s parts h _
    exact absurd h (by simp [split_separator_go])
  | succ fuel ih =>
    intro b s parts h hbs
    rw [split_separator_go] at h
    by_cases hs : s = []
    · rw [if_pos hs] at h
      simp only [Option.some.injEq] at h
      rw [← h, hs, hbs hs]
      simp
    · rw [if_neg hs] at h
      cases hσ : σ s with
      | none =>
        rw [hσ] at h
        simp only [Option.some.injEq] at h
        rw [← h]
        simp
      | some q =>
        obtain ⟨part, after_part, nb, nr⟩ := q
        rw [hσ] at h
        simp only [Option.map_eq_some'] at h
        obtain ⟨rest, hrest, hparts⟩ := h
        have hnr : nr = [] → nb = [] := hd s part after_part nb nr hσ
        have hrj := ih nb nr rest hrest hnr
        have hcov := hc s part after_part nb nr hσ
        rw [← hparts]
        simp only [List.join_cons, hrj]
        rw [← hcov]
        simp [List.append_assoc]

theorem split_separator_join (σ : Separator) (hc : SepCovers σ)
    (hd : SepKeepsTail σ) (text : Text) (parts : List Text)
    (h : split_separator text σ = some parts) : parts.join = text := by
  simpa using
    split_separator_go_join σ hc hd (text.length + 1) [] text parts h
      (fun _ => rfl)

theorem merge_parts_join (api : Api) (B : Int) (S : List Text) :
    (merge_parts api B S).join = S.join := by
  cases S with
  | nil => simp [merge_parts]
  | cons p ps => rw [merge_parts_cons]; simp [merge_aux_join]

theorem merge_parts_bounded (api : Api) (B : Int) (S : List Text)
    (hS : ∀ p ∈ S, (api.token_count p : Int) ≤ B) :
    ∀ q ∈ merge_parts api B S, (api.token_count q : Int) ≤ B := by
  cases S with
  | nil => simp [merge_parts]
  | cons p ps =>
    rw [merge_parts_cons]
    exact merge_aux_bounded api B ps p (hS p (List.mem_cons_self p ps))
      (fun x hx => hS x (List.mem_cons_of_mem p hx))

theorem split_parts_bounded_of (api : Api) (limit : Int)
    (f : Text → Except PyError (List Text))
    (hf : ∀ text res, f text = Except.ok res →
      ∀ p ∈ res, (api.token_count p : Int) ≤ limit) :
    ∀ (ps : List Text) (res : List Text),
      split_parts api limit f ps = Except.ok res →
      ∀ p ∈ res, (api.token_count p : Int) ≤ limit := by
  intro ps
  induction ps with
  | nil =>
    intro res h p hp
    rw [split_parts] at h
    simp only [Except.ok.injEq] at h
    rw [← h] at hp
    simp at hp
  | cons q ps ih =>
    intro res h p hp
    rw [split_parts] at h
    by_cases hq : (api.token_count q : Int) > limit
    · rw [if_pos hq] at h
      cases hgo : f q with
      | error e => rw [hgo] at h; simp at h
      | ok first =>
        rw [hgo] at h
        cases hrest : split_parts api limit f ps with
        | error e => rw [hrest] at h; simp at h
        | ok rest =>
          rw [hrest] at h
          simp only [Except.ok.injEq] at h
          rw [← h] at hp
          rcases List.mem_append.mp hp with hm | hm
          · exact hf q first hgo p hm
          · exact ih rest hrest p hm
    · rw [if_neg hq] at h
      cases hrest : split_parts api limit f ps with
      | error e => rw [hrest] at h; simp at h
      | ok rest =>
        rw [hrest] at h
        simp only [Except.ok.injEq] at h
        rw [← h] at hp
        rcases List.mem_append.mp hp with hm | hm
        · rw [List.mem_singleton.mp hm]; omega
        · exact ih rest hrest p hm

theorem split_parts_join_of (api : Api) (limit : Int)
    (f : Text → Except PyError (List Text))
    (hf : ∀ text res, f text = Except.ok res → res.join = text) :
    ∀ (ps : List Text) (res : List Text),
      split_parts api limit f ps = Except.ok res → res.join = ps.join := by
  intro ps
  induction ps with
  | nil =>
    intro res h
    rw [split_parts] at h
    simp only [Except.ok.injEq] at h
    rw [← h]
  | cons q ps ih =>
    intro res h
    rw [split_parts] at h
    by_cases hq : (api.token_count q : Int) > limit
    · rw [if_pos hq] at h
      cases hgo : f q with
      | error e => rw [hgo] at h; simp at h
      | ok first =>
        rw [hgo] at h
        cases hrest : split_parts api limit f ps with
        | error e => rw [hrest] at h; simp at h
        | ok rest =>
          rw [hrest] at h
          simp only [Except.ok.injEq] at h
          rw [← h]
          simp [List.join_append, hf q first hgo, ih rest hrest]
    · rw [if_neg hq] at h
      cases hrest : split_parts api limit f ps with
      | error e => rw [hrest] at h; simp at h
      | ok rest =>
        rw [hrest] at h
        simp only [Except.ok.injEq] at h
        rw [← h]
        simp [ih rest hrest]

theorem split_text_go_bounded (api : Api) (limit : Int) :
    ∀ (seps : List Separator) (text : Text) (res : List Text),
      split_text_go api limit seps text = Except.ok res →
      ∀ p ∈ res, (api.token_count p : Int) ≤ limit := by
  intro seps
  induction seps with
  | nil =>
    intro text res h
    rw [split_text_go] at h
    simp at h
  | cons σ rest ih =>
    intro text res h p hp
    rw [split_text_go] at h
    split at h
    · simp at h
    · rename_i parts hsp
      cases hmid : split_parts api limit (split_text_go api limit rest) parts with
      | error e => rw [hmid] at h; simp [Except.map] at h
      | ok mid =>
        rw [hmid] at h
        simp only [Except.map, Except.ok.injEq] at h
        rw [← h] at hp
        exact merge_parts_bounded api limit mid
          (split_parts_bounded_of api limit _ ih parts mid hmid) p hp

theorem split_text_go_join (api : Api) (limit : Int) :
    ∀ (seps : List Separator),
      (∀ σ ∈ seps, SepCovers σ ∧ SepKeepsTail σ) →
      ∀ (text : Text) (res : List Text),
        split_text_go api limit seps text = Except.ok res → res.join = text := by
  intro seps
  induction seps with
  | nil =>
    intro _ text res h
    rw [split_text_go] at h
    simp at h
  | cons σ rest ih =>
    intro hwf text res h
    rw [split_text_go] at h
    split at h
    · simp at h
    · rename_i parts hsp
      cases hmid : split_parts api limit (split_text_go api limit rest) parts with
      | error e => rw [hmid] at h; simp [Except.map] at h
      | ok mid =>
        rw [hmid] at h
        simp only [Except.map, Except.ok.injEq] at h
        have hσwf := hwf σ (List.mem_cons_self σ rest)
        have hrest : ∀ τ ∈ rest, SepCovers τ ∧ SepKeepsTail τ :=
          fun τ hτ => hwf τ (List.mem_cons_of_mem σ hτ)
        rw [← h, merge_parts_join]
        exact (split_parts_join_of api limit _ (ih hrest) parts mid hmid).trans
          (split_separator_join σ hσwf.1 hσwf.2 text parts hsp)

theorem sep_whitespace_covers : SepCovers sep_whitespace := by
  intro s b g1 g2 a h
  simp only [sep_whitespace] at h
  split at h
  · exact absurd h (by simp)
  · simp only [Option.some.injEq, Prod.mk.injEq] at h
    obtain ⟨hb, hg1, hg2, ha⟩ := h
    rw [← hb, ← hg1, ← hg2, ← ha]
    simp [List.takeWhile_append_dropWhile]

theorem sep_whitespace_keeps_tail : SepKeepsTail sep_whitespace := by
  intro s b g1 g2 a h _
  simp only [sep_whitespace] at h
  split at h
  · exact absurd h (by simp)
  · simp only [Option.some.injEq, Prod.mk.injEq] at h
    exact h.2.2.1.symm

theorem sep_nl_after_covers : SepCovers sep_nl_after := by
  intro s b g1 g2 a h
  simp only [sep_nl_after] at h
  split at h
  · exact absurd h (by simp)
  · simp only [Option.some.injEq, Prod.mk.injEq] at h
    obtain ⟨hb, hg1, hg2, ha⟩ := h
    rw [← hb, ← hg1, ← hg2, ← ha]
    simp [List.takeWhile_append_dropWhile]

/-- C1: on a 50-token single word with no whitespace under a budget of 10
(counting tokens as characters), the default hierarchy is exhausted — no
rule matches, so `split_text` recurses with `separators[1:]` until the
separator tuple is empty — and the code then raises `IndexError` at
`separators[0]` instead of returning the word as a single oversized leaf
segment, contradicting the specified overflow-leaf behaviour. -/
theorem split_text_hierarchy_exhausted_index_error :
    Llm.split_text lenApi (some 10) default_separators (List.replicate 50 'a')
      = Except.error PyError.indexError := by decide

/-- C5: whenever `split_text` returns normally, every returned segment has
token count at most the budget (the caller limit, or
`max_token_count()` when none was given).  The allowed-overflow-leaf
exception of the claim never materialises on a normal return, because an
atomic oversized unit makes the code raise instead (see C1), so the
claimed disjunction holds. -/
theorem split_text_segments_within_budget (api : Api) (token_limit : Option Int)
    (separators : List Separator) (text : Text) (res : List Text)
    (h : Llm.split_text api token_limit separators text = Except.ok res) :
    ∀ p ∈ res,
      (api.token_count p : Int) ≤ token_limit.getD (api.max_token_count : Int) :=
  split_text_go_bounded api _ separators text res h

/-- C5 witness: splitting "ab cd" under budget 3 yields segments "ab "
and "cd"; the first one is within the budget. -/
theorem split_text_segments_within_budget_witness :
    Llm.split_text lenApi (some 3) default_separators ("ab cd".toList)
      = Except.ok ["ab ".toList, "cd".toList] ∧
    (lenApi.token_count ("ab ".toList) : Int) ≤ 3 :=
  ⟨by decide,
   split_text_segments_within_budget lenApi (some 3) default_separators
     ("ab cd".toList) ["ab ".toList, "cd".toList] (by decide)
     ("ab ".toList) (by decide)⟩

/-- C2 (counterexample): the rule modelling the two-capture-group regex
`()(\n+)` (whose groups fully cover each match) applied to the text
"ab\n" loses the trailing newline: the final match puts the separator in
the second capture group, the remainder becomes empty, and the loop of
`split_separator` exits without flushing `before_remainder`.  The
concatenation of the returned segments is "ab", not the input "ab\n",
refuting losslessness for arbitrary two-capture-group hierarchies. -/
theorem split_text_trailing_group_lost_cex :
    (Llm.split_text lenApi (some 100) [sep_nl_after] ("ab\n".toList)).map
        List.join = Except.ok ("ab".toList) ∧
    ("ab".toList : Text) ≠ "ab\n".toList := by
  exact ⟨by decide, by decide⟩

/-- C2 (amended): for every hierarchy whose rules reassemble each match
from their two capture groups (`SepCovers`, the regex contract the
default rules satisfy) and never capture text into the second group at
the very end of the text being split (`SepKeepsTail`, true in particular
whenever the second group is always empty, as in the default rules),
whenever `split_text` returns normally the concatenation of the returned
segments reproduces the input text exactly and in order. -/
theorem split_text_lossless_of_wellformed_rules (api : Api)
    (token_limit : Option Int) (separators : List Separator) (text : Text)
    (res : List Text)
    (hwf : ∀ σ ∈ separators, SepCovers σ ∧ SepKeepsTail σ)
    (h : Llm.split_text api token_limit separators text = Except.ok res) :
    res.join = text :=
  split_text_go_join api _ separators hwf text res h

/-- C2 (amended) witness: the whitespace rule on "ab cd" under budget 3:
the two returned segments concatenate back to the input. -/
theorem split_text_lossless_of_wellformed_rules_witness :
    Llm.split_text lenApi (some 3) [sep_whitespace] ("ab cd".toList)
      = Except.ok ["ab ".toList, "cd".toList] ∧
    (["ab ".toList, "cd".toList] : List Text).join = "ab cd".toList :=
  ⟨by decide,
   split_text_lossless_of_wellformed_rules lenApi (some 3) [sep_whitespace]
     ("ab cd".toList) ["ab ".toList, "cd".toList]
     (by
       intro σ hσ
       rw [List.mem_singleton.mp hσ]
       exact ⟨sep_whitespace_covers, sep_whitespace_keeps_tail⟩)
     (by decide)⟩

/-- C7 (counterexample): the claim reads the budget as the caller-supplied
`token_limit`.  With a provider limit of 40 tokens, a 10-token prompt and
a 40-token text, the text fits the caller budget 100, yet `summarize`
clamps the working budget to `40 - 10 = 30`, runs a full round of
splitting and asking, and returns the rejoined responses "z\n\nz"
instead of the text unchanged. -/
theorem summarize_caller_budget_not_noop_cex :
    (zApi.token_count longText : Int) ≤ 100 ∧
    (Llm.summarize zApi initState longText (some 100) ("Summarize:".toList)
        10).map Prod.fst = Except.ok ("z\n\nz".toList) ∧
    ("z\n\nz".toList : Text) ≠ longText :=
  ⟨by decide, by decide, by decide⟩

/-- C7 (amended): whenever the token count of the text is at most the
effective budget (the caller limit clamped to
`max_token_count() - token_count(prompt)`; exactly that difference when
no limit is given), `summarize` returns the text unchanged together with
an unchanged state — so in particular zero `ask` calls are issued and no
counter moves. -/
theorem summarize_noop_within_effective_budget (api : Api) (st : LlmState)
    (text : Text) (token_limit : Option Int) (prompt : Text)
    (max_iterations : Nat)
    (h : (api.token_count text : Int) ≤ effective_limit api token_limit prompt) :
    Llm.summarize api st text token_limit prompt max_iterations
      = Except.ok (text, st) := by
  unfold Llm.summarize
  cases max_iterations with
  | zero => rfl
  | succ n =>
    rw [summarize_loop]
    simp [h]

/-- C7 (amended) witness: a 3-token text under an effective budget of 30. -/
theorem summarize_noop_within_effective_budget_witness :
    ((zApi.token_count ("abc".toList) : Int)
      ≤ effective_limit zApi none ("Summarize:".toList)) ∧
    Llm.summarize zApi initState ("abc".toList) none ("Summarize:".toList) 10
      = Except.ok ("abc".toList, initState) :=
  ⟨by decide,
   summarize_noop_within_effective_budget zApi initState ("abc".toList) none
     ("Summarize:".toList) 10 (by decide)⟩

theorem summarize_loop_rounds (api : Api) (limit : Int) (prompt : Text) :
    ∀ (n : Nat) (x : Text × LlmState), ∃ k, k ≤ n ∧
      summarize_loop api limit prompt n x
        = iterate_rounds api limit prompt k x := by
  intro n
  induction n with
  | zero => intro x; exact ⟨0, Nat.le_refl 0, rfl⟩
  | succ n ih =>
    intro x
    by_cases h : (api.token_count x.1 : Int) ≤ limit
    · refine ⟨0, Nat.zero_le _, ?_⟩
      rw [summarize_loop]
      simp [h, iterate_rounds]
    · cases hr : summarize_round api limit prompt x with
      | error e =>
        refine ⟨1, by omega, ?_⟩
        rw [summarize_loop]
        simp [h, hr, iterate_rounds]
      | ok y =>
        obtain ⟨k, hk, heq⟩ := ih y
        refine ⟨k + 1, by omega, ?_⟩
        rw [summarize_loop]
        simp [h, hr, iterate_rounds, heq]

/-- C8: every `summarize` run equals exactly k Kleisli iterations of the
single split-ask-join round for some k at most `max_iterations`: the
loop never performs more than `max_iterations` rounds, and when the cap
is exhausted (or the text fits early) the current — possibly still
oversized — text is returned as a normal value; the only errors are the
ones a round itself raises. -/
theorem summarize_bounded_rounds (api : Api) (st : LlmState) (text : Text)
    (token_limit : Option Int) (prompt : Text) (max_iterations : Nat) :
    ∃ k, k ≤ max_iterations ∧
      Llm.summarize api st text token_limit prompt max_iterations
        = iterate_rounds api (effective_limit api token_limit prompt) prompt k
            (text, st) :=
  summarize_loop_rounds api _ prompt max_iterations (text, st)

/-- C9: the budget the `summarize` loop actually runs with is
`min(token_limit, max_token_count() - token_count(prompt))`, with a
missing `token_limit` standing for exactly that difference. -/
theorem summarize_budget_clamped (api : Api) (st : LlmState) (text : Text)
    (token_limit : Option Int) (prompt : Text) (max_iterations : Nat) :
    Llm.summarize api st text token_limit prompt max_iterations
      = summarize_loop api
          (min
            (token_limit.getD
              ((api.max_token_count : Int) - (api.token_count prompt : Int)))
            ((api.max_token_count : Int) - (api.token_count prompt : Int)))
          prompt max_iterations (text, st) := by
  cases token_limit with
  | none => simp [Llm.summarize, effective_limit]
  | some l => simp [Llm.summarize, effective_limit]
